import Mathlib

/-!
# Verification of the fortia-api daily-quest / workout-program core

Shallow embedding of the daily-quest streak engine, the workout-program
scheduler and field normalizer, the session completion tracker, and the
muscle-balance aggregator of the fortia-api repository, together with
proofs of the specified properties.

Conventions:
* Calendar dates are modelled as natural numbers (days since the Unix
  epoch 1970-01-01, which was a Thursday); `date - 1` is the previous
  day, and the JavaScript `Date.getDay` convention (0 = Sunday) is
  `jsGetDay d = (d + 4) % 7`.
* Database tables are modelled per user as association lists from the
  row key to the row value; `INSERT` appends, `UPDATE ... WHERE key = k`
  maps over the rows with matching key.
* Loosely-typed JavaScript values arriving from the text-generation
  service are modelled by the inductive `JSVal`.
-/

namespace Fortia

/-! ## Daily-quest engine

From `src/app/api/daily-quests/route.ts` (GET / POST / PUT handlers) and
the quest bookkeeping blocks of the weights and activities routes.
Schema defaults (migration `002_create_daily_quests_table.sql`): all
four booleans default to `false` and `streak_day` defaults to `1`;
`(clerk_id, date)` is unique, so per user the table is keyed by date. -/

/-- The three quest flags of a daily-quest row
(`weight_logged`, `meal_logged`, `exercise_logged`). -/
inductive QuestType where
  | weight
  | meal
  | exercise
deriving DecidableEq, Repr

/-- One `daily_quests` row (per-user part).  The field defaults are the
column defaults of the schema. -/
structure QuestRow where
  weight_logged : Bool := false
  meal_logged : Bool := false
  exercise_logged : Bool := false
  day_completed : Bool := false
  streak_day : Nat := 1
deriving DecidableEq, Repr

/-- The `daily_quests` table restricted to one user: date ↦ row. -/
abbrev QuestDB := List (Nat × QuestRow)

/-- `SELECT * FROM daily_quests WHERE clerk_id = u AND date = d`
(at most one row by the unique constraint; we return the first match). -/
def findQuest (db : QuestDB) (date : Nat) : Option QuestRow :=
  (db.find? (fun p => p.1 == date)).map Prod.snd

/-- `UPDATE daily_quests SET ... WHERE clerk_id = u AND date = d`:
apply `f` to every row whose key is `date`. -/
def updateAt (db : QuestDB) (date : Nat) (f : QuestRow → QuestRow) : QuestDB :=
  db.map (fun p => if p.1 == date then (p.1, f p.2) else p)

/-- Set the flag column named by `t` to `true`. -/
def setFlag (q : QuestRow) (t : QuestType) : QuestRow :=
  match t with
  | .weight => { q with weight_logged := true }
  | .meal => { q with meal_logged := true }
  | .exercise => { q with exercise_logged := true }

/-- `quest.weight_logged && quest.meal_logged && quest.exercise_logged`. -/
def allCompleted (q : QuestRow) : Bool :=
  q.weight_logged && q.meal_logged && q.exercise_logged

/-- Flag-update phase of the quest-recording POST handlers: if no row
exists for the date, `INSERT` a fresh row with the single flag set (all
other columns take their schema defaults, in particular
`streak_day = 1`); otherwise `UPDATE` the existing row's flag.  This is
the `INSERT ... ON CONFLICT (clerk_id, date) DO UPDATE SET flag = true`
of the weights/activities routes and the select-then-insert-or-update of
`daily-quests/route.ts` POST. -/
def questFlagPhase (db : QuestDB) (t : QuestType) (date : Nat) : QuestDB :=
  match findQuest db date with
  | none => db ++ [(date, setFlag {} t)]
  | some _ => updateAt db date (fun q => setFlag q t)

/-- Completion re-check phase: re-read the row; if all three flags are
true and `day_completed` is still false, set `day_completed = true`. -/
def questCompletePhase (db : QuestDB) (date : Nat) : QuestDB :=
  match findQuest db date with
  | none => db
  | some q =>
    if allCompleted q && !q.day_completed then
      updateAt db date (fun r => { r with day_completed := true })
    else db

/-- `recordQuestAction`: the quest-recording POST handler (flag update
followed by the completion re-check). -/
def recordQuestAction (db : QuestDB) (t : QuestType) (date : Nat) : QuestDB :=
  questCompletePhase (questFlagPhase db t date) date

/-- `getOrCreateTodayQuest`: the GET handler of
`daily-quests/route.ts`.  If no row exists for the date it reads the
previous day's row and inserts a fresh row whose `streak_day` is
`prior streak + 1` when the previous day exists and is completed, else
`1`; flags take their defaults.  Returns the new table and the row. -/
def getOrCreateTodayQuest (db : QuestDB) (date : Nat) : QuestDB × QuestRow :=
  match findQuest db date with
  | some q => (db, q)
  | none =>
    let currentStreak :=
      match findQuest db (date - 1) with
      | some prev => if prev.day_completed then prev.streak_day + 1 else 1
      | none => 1
    let row : QuestRow := { streak_day := currentStreak }
    (db ++ [(date, row)], row)

/-- `markDayComplete`: the PUT handler of `daily-quests/route.ts`.
Runs `UPDATE daily_quests SET day_completed = true WHERE clerk_id = u
AND date = d` (which touches no row when none matches) and answers
success unconditionally. -/
def markDayComplete (db : QuestDB) (date : Nat) : QuestDB × Bool :=
  (updateAt db date (fun q => { q with day_completed := true }), true)

/-- The spec's streak-initialization rule, stated from the spec's words:
streak for date `d` is 1 if the row for `d - 1` is missing or
incomplete, else the prior streak + 1.  Used to compare row-creation
paths against the claimed invariant. -/
def specInitialStreak (db : QuestDB) (date : Nat) : Nat :=
  match findQuest db (date - 1) with
  | some prev => if prev.day_completed then prev.streak_day + 1 else 1
  | none => 1

/-! ### Association-list lemmas -/

theorem findQuest_append_of_none (db : QuestDB) (date : Nat) (r : QuestRow)
    (h : findQuest db date = none) :
    findQuest (db ++ [(date, r)]) date = some r := by
  induction db with
  | nil => simp [findQuest]
  | cons p rest ih =>
    simp only [findQuest, List.find?] at h ⊢
    cases hp : (p.1 == date) with
    | true => simp [hp] at h
    | false =>
      simp only [hp, List.cons_append] at h ⊢
      exact ih h

theorem findQuest_append_of_ne (db : QuestDB) (date d : Nat) (r : QuestRow)
    (h : d ≠ date) :
    findQuest (db ++ [(date, r)]) d = findQuest db d := by
  induction db with
  | nil =>
    have : (date == d) = false := beq_eq_false_iff_ne.mpr (Ne.symm h)
    simp [findQuest, List.find?, this]
  | cons p rest ih =>
    simp only [findQuest, List.cons_append, List.find?] at ih ⊢
    cases hp : (p.1 == d) with
    | true => simp
    | false => simpa using ih

theorem findQuest_updateAt (db : QuestDB) (date d : Nat) (f : QuestRow → QuestRow) :
    findQuest (updateAt db date f) d =
      if d = date then (findQuest db d).map f else findQuest db d := by
  induction db with
  | nil => simp [findQuest, updateAt]
  | cons p rest ih =>
    simp only [findQuest, updateAt, List.map_cons, List.find?] at ih ⊢
    by_cases hpd : p.1 = d
    · by_cases hpt : p.1 = date
      · have h1 : (p.1 == date) = true := beq_iff_eq.mpr hpt
        have h2 : (p.1 == d) = true := beq_iff_eq.mpr hpd
        have h3 : d = date := hpd ▸ hpt
        simp [h1, h2, h3]
      · have h1 : (p.1 == date) = false := beq_eq_false_iff_ne.mpr hpt
        have h2 : (p.1 == d) = true := beq_iff_eq.mpr hpd
        have h3 : ¬d = date := fun hc => hpt (hpd.trans hc)
        simp [h1, h2, h3]
    · have h2 : (p.1 == d) = false := beq_eq_false_iff_ne.mpr hpd
      by_cases hpt : p.1 = date
      · have h1 : (p.1 == date) = true := beq_iff_eq.mpr hpt
        simp only [h1, if_true, List.find?]
        simp only [show ((p.1, f p.2).1 == d) = false from h2]
        exact ih
      · have h1 : (p.1 == date) = false := beq_eq_false_iff_ne.mpr hpt
        simp only [h1, Bool.false_eq_true, if_false, List.find?, h2]
        exact ih

theorem updateAt_of_none (db : QuestDB) (date : Nat) (f : QuestRow → QuestRow)
    (h : findQuest db date = none) : updateAt db date f = db := by
  induction db with
  | nil => rfl
  | cons p rest ih =>
    simp only [findQuest, List.find?] at h
    cases hp : (p.1 == date) with
    | true => simp [hp] at h
    | false =>
      simp only [hp] at h
      simp only [updateAt, List.map_cons, hp, Bool.false_eq_true, if_false]
      have : updateAt rest date f = rest := ih (by simpa [findQuest] using h)
      simp only [updateAt] at this
      rw [this]

/-! ### Characterizations of the quest-recording phases -/

theorem setFlag_day_completed (q : QuestRow) (t : QuestType) :
    (setFlag q t).day_completed = q.day_completed := by
  cases t <;> rfl

theorem setFlag_streak_day (q : QuestRow) (t : QuestType) :
    (setFlag q t).streak_day = q.streak_day := by
  cases t <;> rfl

theorem allCompleted_setFlag (q : QuestRow) (t : QuestType)
    (h : allCompleted q = true) : allCompleted (setFlag q t) = true := by
  cases t <;> simp_all [allCompleted, setFlag]

theorem allCompleted_setFlag_default (t : QuestType) :
    allCompleted (setFlag {} t) = false := by
  cases t <;> rfl

theorem findQuest_questFlagPhase (db : QuestDB) (t : QuestType) (date d : Nat) :
    findQuest (questFlagPhase db t date) d =
      if d = date then
        some (match findQuest db date with
              | none => setFlag {} t
              | some q => setFlag q t)
      else findQuest db d := by
  unfold questFlagPhase
  cases hq : findQuest db date with
  | none =>
    by_cases hd : d = date
    · subst hd; simp [findQuest_append_of_none db d _ hq]
    · simp [hd, findQuest_append_of_ne db date d _ hd]
  | some q =>
    rw [findQuest_updateAt]
    by_cases hd : d = date
    · subst hd; simp [hq]
    · simp [hd]

theorem findQuest_questCompletePhase (db : QuestDB) (date d : Nat) :
    findQuest (questCompletePhase db date) d =
      match findQuest db date with
      | none => findQuest db d
      | some q =>
        if allCompleted q && !q.day_completed then
          (if d = date then (findQuest db d).map
              (fun r => { r with day_completed := true })
            else findQuest db d)
        else findQuest db d := by
  unfold questCompletePhase
  cases hq : findQuest db date with
  | none => rfl
  | some q =>
    by_cases hc : (allCompleted q && !q.day_completed) = true
    · simp only [hc, if_true, findQuest_updateAt]
    · simp only [Bool.not_eq_true] at hc
      simp [hc]

/-- `recordQuestAction` never removes a row and only ever changes the row
for its own date or raises `day_completed`: full lookup characterization. -/
theorem findQuest_recordQuestAction (db : QuestDB) (t : QuestType) (date d : Nat) :
    findQuest (recordQuestAction db t date) d =
      (let q1 := match findQuest db date with
                 | none => setFlag {} t
                 | some q => setFlag q t
       if d = date then
         some (if allCompleted q1 && !q1.day_completed then
                 { q1 with day_completed := true }
               else q1)
       else findQuest db d) := by
  unfold recordQuestAction
  rw [findQuest_questCompletePhase, findQuest_questFlagPhase,
    findQuest_questFlagPhase]
  simp only [if_pos rfl]
  generalize (match findQuest db date with
    | none => setFlag {} t
    | some q => setFlag q t) = q1
  by_cases hd : d = date
  · subst hd
    by_cases hc : (allCompleted q1 && !q1.day_completed) = true
    · simp [hc]
    · simp [hc]
  · by_cases hc : (allCompleted q1 && !q1.day_completed) = true
    · simp [hd, hc]
    · simp [hd, hc]

/-- Lookup at the recorded date after `recordQuestAction`. -/
theorem recordQuestAction_self (db : QuestDB) (t : QuestType) (date : Nat) :
    findQuest (recordQuestAction db t date) date =
      some (let q1 := match findQuest db date with
                      | none => setFlag {} t
                      | some q => setFlag q t
            if allCompleted q1 && !q1.day_completed then
              { q1 with day_completed := true }
            else q1) := by
  rw [findQuest_recordQuestAction]
  simp

/-- Lookup at any other date after `recordQuestAction`: unchanged. -/
theorem recordQuestAction_other (db : QuestDB) (t : QuestType) (date d : Nat)
    (hd : d ≠ date) :
    findQuest (recordQuestAction db t date) d = findQuest db d := by
  rw [findQuest_recordQuestAction]
  simp [hd]

/-! ### C1: streak initialization at row creation -/

/-- A daily-quest table in which date 9 is fully completed with a streak
of 5 and date 10 has no row yet. -/
def staleStreakDB : QuestDB :=
  [(9, { weight_logged := true, meal_logged := true, exercise_logged := true,
         day_completed := true, streak_day := 5 })]

/-- C1 counterexample: with the previous day (date 9) completed at
streak 5, the claimed rule requires the row created for date 10 to get
`streak_day = 6`; but `recordQuestAction` (the quest POST handlers)
creates the row with only the flag column, so `streak_day` takes the
schema default 1. -/
theorem recordQuestAction_streak_counterexample :
    findQuest staleStreakDB 10 = none ∧
    (findQuest staleStreakDB 9).map QuestRow.day_completed = some true ∧
    (findQuest staleStreakDB 9).map QuestRow.streak_day = some 5 ∧
    specInitialStreak staleStreakDB 10 = 6 ∧
    (findQuest (recordQuestAction staleStreakDB QuestType.weight 10) 10).map
        QuestRow.streak_day = some 1 ∧
    (1 : Nat) ≠ 6 := by
  refine ⟨rfl, rfl, rfl, rfl, ?_, by decide⟩
  rfl

/-- C1 (amended): when no row exists for the date, a row created by
`getOrCreateTodayQuest` gets the spec's streak-initialization value
(1 if the previous day is missing or incomplete, prior streak + 1
otherwise), but a row created by `recordQuestAction` always gets the
schema default `streak_day = 1`, whatever the previous day holds. -/
theorem quest_row_creation_streak (db : QuestDB) (date : Nat)
    (h : findQuest db date = none) :
    ((findQuest (getOrCreateTodayQuest db date).1 date).map QuestRow.streak_day =
        some (specInitialStreak db date)) ∧
    (∀ t : QuestType,
      (findQuest (recordQuestAction db t date) date).map QuestRow.streak_day =
        some 1) := by
  constructor
  · simp only [getOrCreateTodayQuest, h]
    rw [findQuest_append_of_none db date _ h]
    rfl
  · intro t
    rw [findQuest_recordQuestAction]
    simp [h, allCompleted_setFlag_default, setFlag_streak_day]

/-- Witness for `quest_row_creation_streak` at the empty table and
date 5 (both creation paths yield `streak_day = 1` there). -/
theorem quest_row_creation_streak_witness :
    findQuest ([] : QuestDB) 5 = none ∧
    (findQuest (recordQuestAction ([] : QuestDB) QuestType.meal 5) 5).map
        QuestRow.streak_day = some 1 :=
  ⟨rfl, (quest_row_creation_streak [] 5 rfl).2 QuestType.meal⟩

/-! ### C4: the automatic completion invariant -/

/-- Daily-quest tables reachable from the empty table through
`recordQuestAction` alone (the automatic flag-setting path, excluding
the manual `markDayComplete` override). -/
inductive QuestReachable : QuestDB → Prop where
  | nil : QuestReachable []
  | step (db : QuestDB) (t : QuestType) (date : Nat) :
      QuestReachable db → QuestReachable (recordQuestAction db t date)

/-- The completion invariant as a predicate on tables. -/
def questInvariant (db : QuestDB) : Prop :=
  ∀ d q, findQuest db d = some q → q.day_completed = true → allCompleted q = true

theorem questInvariant_record (db : QuestDB) (t : QuestType) (date : Nat)
    (h : questInvariant db) : questInvariant (recordQuestAction db t date) := by
  intro d q hq hdone
  by_cases hd : d = date
  · subst hd
    rw [recordQuestAction_self] at hq
    cases hdb : findQuest db d with
    | none =>
      simp only [hdb, Option.some.injEq] at hq
      by_cases hc : (allCompleted (setFlag {} t) && !(setFlag {} t).day_completed) = true
      · rw [allCompleted_setFlag_default] at hc; simp at hc
      · rw [if_neg hc] at hq
        rw [← hq, setFlag_day_completed] at hdone
        simp at hdone
    | some q0 =>
      simp only [hdb, Option.some.injEq] at hq
      by_cases hc : (allCompleted (setFlag q0 t) && !(setFlag q0 t).day_completed) = true
      · rw [if_pos hc] at hq
        have hall : allCompleted (setFlag q0 t) = true := (Bool.and_eq_true_iff.mp hc).1
        rw [← hq]
        simpa [allCompleted] using hall
      · rw [if_neg hc] at hq
        rw [← hq] at hdone ⊢
        rw [setFlag_day_completed] at hdone
        exact allCompleted_setFlag q0 t (h d q0 hdb hdone)
  · rw [recordQuestAction_other db t date d hd] at hq
    exact h d q hq hdone

theorem questInvariant_reachable (db : QuestDB) (h : QuestReachable db) :
    questInvariant db := by
  induction h with
  | nil => intro d q hq _; simp [findQuest] at hq
  | step db t date _ ih => exact questInvariant_record db t date ih

/-- C4: along the automatic path (i) every reachable row with
`day_completed = true` has all three flags true; (ii) after the flag
update, `day_completed` ends up true exactly when it already was true or
all three flags now are (so it is newly set exactly when all three hold
and it was false); (iii) a row whose `day_completed` is true keeps it
true across any further `recordQuestAction`. -/
theorem quest_completion_invariant :
    (∀ db : QuestDB, QuestReachable db → ∀ date q,
        findQuest db date = some q → q.day_completed = true →
        q.weight_logged = true ∧ q.meal_logged = true ∧ q.exercise_logged = true) ∧
    (∀ (db : QuestDB) (t : QuestType) (date : Nat) (q1 : QuestRow),
        findQuest (questFlagPhase db t date) date = some q1 →
        (findQuest (recordQuestAction db t date) date).map QuestRow.day_completed =
          some (q1.day_completed || allCompleted q1)) ∧
    (∀ (db : QuestDB) (t : QuestType) (date d : Nat) (q : QuestRow),
        findQuest db d = some q → q.day_completed = true →
        ∃ q2, findQuest (recordQuestAction db t date) d = some q2 ∧
          q2.day_completed = true) := by
  refine ⟨?_, ?_, ?_⟩
  · intro db hr date q hq hdone
    have := questInvariant_reachable db hr date q hq hdone
    simpa [allCompleted, Bool.and_eq_true_iff, and_assoc] using this
  · intro db t date q1 hq1
    have hflag := findQuest_questFlagPhase db t date date
    rw [if_pos rfl] at hflag
    rw [hflag, Option.some.injEq] at hq1
    rw [recordQuestAction_self]
    simp only [hq1, Option.map_some, Option.some.injEq]
    by_cases hc : (allCompleted q1 && !q1.day_completed) = true
    · rw [if_pos hc]
      have hall : allCompleted q1 = true := (Bool.and_eq_true_iff.mp hc).1
      simp [hall]
    · rw [if_neg hc]
      cases hb : q1.day_completed with
      | true => simp [hb]
      | false =>
        have hall : allCompleted q1 = false := by
          cases hall : allCompleted q1 with
          | false => rfl
          | true => exact absurd (by simp [hall, hb]) hc
        simp [hb, hall]
  · intro db t date d q hq hdone
    by_cases hd : d = date
    · subst hd
      rw [recordQuestAction_self]
      simp only [hq]
      by_cases hc : (allCompleted (setFlag q t) && !(setFlag q t).day_completed) = true
      · rw [if_pos hc]
        exact ⟨_, rfl, rfl⟩
      · rw [if_neg hc]
        refine ⟨setFlag q t, rfl, ?_⟩
        rw [setFlag_day_completed]
        exact hdone
    · exact ⟨q, by rw [recordQuestAction_other db t date d hd]; exact hq, hdone⟩

/-- Witness for `quest_completion_invariant`: logging weight, meal and
exercise on date 3 starting from the empty table yields a reachable row
with `day_completed = true`, whose three flags the theorem then shows
are all true. -/
theorem quest_completion_invariant_witness :
    (let db3 := recordQuestAction (recordQuestAction
        (recordQuestAction [] QuestType.weight 3) QuestType.meal 3) QuestType.exercise 3
     ∃ q, findQuest db3 3 = some q ∧ q.day_completed = true ∧
       q.weight_logged = true ∧ q.meal_logged = true ∧ q.exercise_logged = true) := by
  refine ⟨{ weight_logged := true, meal_logged := true, exercise_logged := true,
            day_completed := true, streak_day := 1 }, by decide, rfl, ?_⟩
  exact quest_completion_invariant.1 _
    (QuestReachable.step _ QuestType.exercise 3
      (QuestReachable.step _ QuestType.meal 3
        (QuestReachable.step _ QuestType.weight 3 QuestReachable.nil)))
    3 _ (by decide) rfl

/-! ### C10: manual completion of a nonexistent row -/

/-- C10: `markDayComplete` on a `(user, date)` with no daily-quest row
reports success, creates no row, and leaves the table unchanged, so
`day_completed` for that date is still not recorded afterwards. -/
theorem markDayComplete_missing_row (db : QuestDB) (date : Nat)
    (h : findQuest db date = none) :
    (markDayComplete db date).2 = true ∧
    (markDayComplete db date).1 = db ∧
    findQuest (markDayComplete db date).1 date = none := by
  have hu : updateAt db date (fun q => { q with day_completed := true }) = db :=
    updateAt_of_none db date _ h
  exact ⟨rfl, hu, by simpa [markDayComplete, hu] using h⟩

/-- Witness for `markDayComplete_missing_row`: a table holding only a
row for date 2, marked complete for date 5. -/
theorem markDayComplete_missing_row_witness :
    findQuest [(2, ({} : QuestRow))] 5 = none ∧
    (markDayComplete [(2, ({} : QuestRow))] 5).1 = [(2, ({} : QuestRow))] :=
  ⟨rfl, (markDayComplete_missing_row [(2, ({} : QuestRow))] 5 rfl).2.1⟩

/-! ## Workout-program scheduler

`calculateWorkoutDates` from the program-generation route.  Calendar
dates are days since the Unix epoch; 1970-01-01 was a Thursday, so
JavaScript's `Date.getDay` (0 = Sunday) of day `n` is `(n + 4) % 7`. -/

/-- Weekday names accepted by the route's `dayMap`. -/
inductive Weekday where
  | sunday
  | monday
  | tuesday
  | wednesday
  | thursday
  | friday
  | saturday
deriving DecidableEq, Repr

/-- The route's `dayMap`: weekday name to JS day number (0 = Sunday). -/
def dayMap : Weekday → Nat
  | .sunday => 0
  | .monday => 1
  | .tuesday => 2
  | .wednesday => 3
  | .thursday => 4
  | .friday => 5
  | .saturday => 6

/-- JavaScript `Date.getDay` of a date given as days since the epoch. -/
def jsGetDay (d : Nat) : Nat := (d + 4) % 7

/-- One entry pushed by `calculateWorkoutDates`. -/
structure ScheduledDate where
  week : Nat
  dayOfWeek : Weekday
  date : Nat
  sessionNumber : Nat
deriving DecidableEq, Repr

/-- The per-(week, weekday) date computation:
`weekStart = start + (week - 1) * 7`, then
`daysUntilTarget = (dayNumber - weekStart.getDay() + 7) % 7` (the `+ 7`
keeps the JS remainder non-negative; `dayMap day + 7` exceeds any
`getDay` value, so Nat subtraction matches the JS arithmetic). -/
def calcSessionDate (startDate week : Nat) (day : Weekday) : Nat :=
  let weekStart := startDate + (week - 1) * 7
  let daysUntilTarget := (dayMap day + 7 - jsGetDay weekStart) % 7
  weekStart + daysUntilTarget

/-- `calculateWorkoutDates(startDate, workoutDays, totalWeeks)`: for
every week 1..totalWeeks, iterate the weekday list in the order it was
provided, pushing the computed date; `sessionNumber` restarts at 1 each
week and increments per pushed entry. -/
def calculateWorkoutDates (startDate : Nat) (workoutDays : List Weekday)
    (totalWeeks : Nat) : List ScheduledDate :=
  (List.range totalWeeks).flatMap (fun w0 =>
    workoutDays.enum.map (fun p =>
      { week := w0 + 1, dayOfWeek := p.2,
        date := calcSessionDate startDate (w0 + 1) p.2,
        sessionNumber := p.1 + 1 }))

theorem jsGetDay_calcSessionDate (S week : Nat) (d : Weekday) :
    jsGetDay (calcSessionDate S week d) = dayMap d := by
  cases d <;> (simp only [calcSessionDate, jsGetDay, dayMap]; omega)

theorem calcSessionDate_bounds (S week : Nat) (d : Weekday) :
    S + (week - 1) * 7 ≤ calcSessionDate S week d ∧
      calcSessionDate S week d ≤ S + (week - 1) * 7 + 6 := by
  simp only [calcSessionDate, jsGetDay]
  omega

theorem calculateWorkoutDates_mw3_eq (S : Nat) :
    calculateWorkoutDates S [.monday, .wednesday] 3 =
      [ { week := 1, dayOfWeek := .monday,
          date := calcSessionDate S 1 .monday, sessionNumber := 1 },
        { week := 1, dayOfWeek := .wednesday,
          date := calcSessionDate S 1 .wednesday, sessionNumber := 2 },
        { week := 2, dayOfWeek := .monday,
          date := calcSessionDate S 2 .monday, sessionNumber := 1 },
        { week := 2, dayOfWeek := .wednesday,
          date := calcSessionDate S 2 .wednesday, sessionNumber := 2 },
        { week := 3, dayOfWeek := .monday,
          date := calcSessionDate S 3 .monday, sessionNumber := 1 },
        { week := 3, dayOfWeek := .wednesday,
          date := calcSessionDate S 3 .wednesday, sessionNumber := 2 } ] := rfl

/-- C2: for any start date S, weekday list [Monday, Wednesday] and
3 total weeks, `calculateWorkoutDates` produces exactly 6 entries; each
entry falls on its named weekday (hence on a Monday or a Wednesday) and
lies in the window `[S + 7*(w-1), S + 7*(w-1) + 6]` of its week `w` (so
every week-2 date `d` satisfies `S + 7 ≤ d < S + 14`); within each week,
session numbers 1, 2 follow the order of the weekday list (Monday first,
then Wednesday). -/
theorem calculateWorkoutDates_monday_wednesday_3weeks (S : Nat) :
    (calculateWorkoutDates S [.monday, .wednesday] 3).length = 6 ∧
    (∀ e ∈ calculateWorkoutDates S [.monday, .wednesday] 3,
      (e.dayOfWeek = .monday ∨ e.dayOfWeek = .wednesday) ∧
      jsGetDay e.date = dayMap e.dayOfWeek ∧
      S + 7 * (e.week - 1) ≤ e.date ∧
      e.date ≤ S + 7 * (e.week - 1) + 6 ∧
      (e.week = 2 → S + 7 ≤ e.date ∧ e.date < S + 14) ∧
      (e.dayOfWeek = .monday → e.sessionNumber = 1) ∧
      (e.dayOfWeek = .wednesday → e.sessionNumber = 2)) := by
  constructor
  · rw [calculateWorkoutDates_mw3_eq]; rfl
  · intro e he
    rw [calculateWorkoutDates_mw3_eq] at he
    simp only [List.mem_cons, List.not_mem_nil, or_false] at he
    rcases he with rfl | rfl | rfl | rfl | rfl | rfl <;> dsimp only
    · exact ⟨Or.inl rfl, jsGetDay_calcSessionDate S 1 .monday,
        by have := calcSessionDate_bounds S 1 .monday; omega,
        by have := calcSessionDate_bounds S 1 .monday; omega,
        by omega, fun _ => rfl, by simp⟩
    · exact ⟨Or.inr rfl, jsGetDay_calcSessionDate S 1 .wednesday,
        by have := calcSessionDate_bounds S 1 .wednesday; omega,
        by have := calcSessionDate_bounds S 1 .wednesday; omega,
        by omega, by simp, fun _ => rfl⟩
    · exact ⟨Or.inl rfl, jsGetDay_calcSessionDate S 2 .monday,
        by have := calcSessionDate_bounds S 2 .monday; omega,
        by have := calcSessionDate_bounds S 2 .monday; omega,
        fun _ => by have := calcSessionDate_bounds S 2 .monday; omega,
        fun _ => rfl, by simp⟩
    · exact ⟨Or.inr rfl, jsGetDay_calcSessionDate S 2 .wednesday,
        by have := calcSessionDate_bounds S 2 .wednesday; omega,
        by have := calcSessionDate_bounds S 2 .wednesday; omega,
        fun _ => by have := calcSessionDate_bounds S 2 .wednesday; omega,
        by simp, fun _ => rfl⟩
    · exact ⟨Or.inl rfl, jsGetDay_calcSessionDate S 3 .monday,
        by have := calcSessionDate_bounds S 3 .monday; omega,
        by have := calcSessionDate_bounds S 3 .monday; omega,
        by omega, fun _ => rfl, by simp⟩
    · exact ⟨Or.inr rfl, jsGetDay_calcSessionDate S 3 .wednesday,
        by have := calcSessionDate_bounds S 3 .wednesday; omega,
        by have := calcSessionDate_bounds S 3 .wednesday; omega,
        by omega, by simp, fun _ => rfl⟩

/-- Witness for `calculateWorkoutDates_monday_wednesday_3weeks`:
instantiated at start date 0 (a Thursday) and the first produced entry,
which falls on the Monday four days later. -/
theorem calculateWorkoutDates_mw3_witness :
    ({ week := 1, dayOfWeek := .monday, date := 4, sessionNumber := 1 } :
        ScheduledDate) ∈ calculateWorkoutDates 0 [.monday, .wednesday] 3 ∧
    jsGetDay 4 = dayMap Weekday.monday := by
  have h := (calculateWorkoutDates_monday_wednesday_3weeks 0).2
    { week := 1, dayOfWeek := .monday, date := 4, sessionNumber := 1 }
    (by decide)
  exact ⟨by decide, h.2.1⟩

/-! ## Session completion tracker

From the workout-session route: its PUT handler (exercise completion)
and POST handler (session completion).  Program generation inserts
sessions with `completion_status = 'scheduled'`. -/

inductive CompletionStatus where
  | scheduled
  | in_progress
  | completed
deriving DecidableEq, Repr, Fintype

/-- Forward order of the three-state machine. -/
def statusRank : CompletionStatus → Nat
  | .scheduled => 0
  | .in_progress => 1
  | .completed => 2

/-- Effect of the exercise-completion PUT handler on the owning
session's `completion_status`: after updating the exercise row, when
`sessionId` and `clerkId` are supplied (`hasIds`) and `completed` is
true and the session is still `scheduled`, it is set to `in_progress`;
in every other case the session row is untouched. -/
def putExerciseStatus (completed hasIds : Bool) (st : CompletionStatus) :
    CompletionStatus :=
  if hasIds && completed && (st == .scheduled) then .in_progress else st

/-- Effect of the session-completion POST handler:
`UPDATE workout_sessions SET completion_status = 'completed'`,
unconditionally. -/
def postCompleteStatus (_st : CompletionStatus) : CompletionStatus :=
  .completed

/-- C5: the session status machine only moves forward
(`scheduled → in_progress → completed`): both handlers are monotone in
`statusRank`; the PUT handler reaches `in_progress` only from
`scheduled` with an exercise actually marked complete; the PUT handler
never produces `completed` (so `completed` is entered only by the
explicit POST), and the POST always yields `completed`. -/
theorem session_status_monotonic :
    (∀ (c h : Bool) (st : CompletionStatus),
      statusRank st ≤ statusRank (putExerciseStatus c h st) ∧
      statusRank st ≤ statusRank (postCompleteStatus st)) ∧
    (∀ (c h : Bool) (st : CompletionStatus),
      putExerciseStatus c h st = .in_progress →
        st = .in_progress ∨ (st = .scheduled ∧ c = true ∧ h = true)) ∧
    (∀ (c h : Bool) (st : CompletionStatus),
      putExerciseStatus c h st = .completed → st = .completed) ∧
    (∀ st : CompletionStatus, postCompleteStatus st = .completed) := by
  refine ⟨?_, ?_, ?_, ?_⟩ <;> decide

/-- Witness for `session_status_monotonic`: completing an exercise of a
still-`scheduled` session (with ids supplied) moves it to
`in_progress`, and the theorem's converse direction applies there. -/
theorem session_status_monotonic_witness :
    putExerciseStatus true true .scheduled = .in_progress ∧
    (CompletionStatus.scheduled = .in_progress ∨
      (CompletionStatus.scheduled = .scheduled ∧ true = true ∧ true = true)) :=
  ⟨rfl, session_status_monotonic.2.1 true true .scheduled rfl⟩

/-! ## Muscle-volume aggregator (`src/lib/muscleBalanceUtils.ts`) -/

/-- The six tracked muscle groups (`MuscleVolume` interface), all
initialized to 0. -/
structure MuscleVolume where
  chest : Nat := 0
  back : Nat := 0
  legs : Nat := 0
  shoulders : Nat := 0
  arms : Nat := 0
  core : Nat := 0
deriving DecidableEq, Repr

/-- A completed exercise as consumed by the aggregator.  (The source
tolerates a missing `muscle_groups` via `?.`; an absent list is
modelled as `[]`.) -/
structure WExercise where
  sets : Nat
  reps : Nat
  muscle_groups : List String
deriving DecidableEq, Repr

/-- `volume[group] += exerciseVolume` when `group` is one of the six
tracked keys; any other group name is ignored
(the `volume[group] !== undefined` guard). -/
def addGroupVolume (v : MuscleVolume) (g : String) (amt : Nat) : MuscleVolume :=
  if g = "chest" then { v with chest := v.chest + amt }
  else if g = "back" then { v with back := v.back + amt }
  else if g = "legs" then { v with legs := v.legs + amt }
  else if g = "shoulders" then { v with shoulders := v.shoulders + amt }
  else if g = "arms" then { v with arms := v.arms + amt }
  else if g = "core" then { v with core := v.core + amt }
  else v

/-- `calculateMuscleVolume`: each exercise's `sets * reps` is added to
the total of every muscle group it is tagged with. -/
def calculateMuscleVolume (exercises : List WExercise) : MuscleVolume :=
  exercises.foldl
    (fun v e => e.muscle_groups.foldl
      (fun v2 g => addGroupVolume v2 g (e.sets * e.reps)) v)
    {}

/-- `Object.values(volume).reduce((a, b) => a + b, 0)`. -/
def totalVolume (v : MuscleVolume) : Nat :=
  v.chest + v.back + v.legs + v.shoulders + v.arms + v.core

/-- One `muscle_balance_history` row (per-user part). -/
structure MBRow where
  chest_volume : Nat
  back_volume : Nat
  legs_volume : Nat
  shoulders_volume : Nat
  arms_volume : Nat
  core_volume : Nat
  total_volume : Nat
  workout_date : Nat
deriving DecidableEq, Repr

/-- The `muscle_balance_history` table restricted to one user:
session id ↦ row (the table is unique on `(clerk_id, session_id)`). -/
abbrev MBDB := List (Nat × MBRow)

def lookupMB (db : MBDB) (sessionId : Nat) : Option MBRow :=
  (db.find? (fun p => p.1 == sessionId)).map Prod.snd

/-- Number of rows stored for a session (1 at most, by uniqueness). -/
def countSession (db : MBDB) (sessionId : Nat) : Nat :=
  (db.filter (fun p => p.1 == sessionId)).length

/-- `recordMuscleBalance`: one
`INSERT ... ON CONFLICT (clerk_id, session_id) DO UPDATE` statement.  On
conflict the per-group volumes and `total_volume` are overwritten with
the new call's values (`workout_date` and the other columns are left as
first inserted). -/
def recordMuscleBalance (db : MBDB) (sessionId : Nat)
    (exercises : List WExercise) (workoutDate : Nat) : MBDB :=
  let volume := calculateMuscleVolume exercises
  let total := totalVolume volume
  match db.find? (fun p => p.1 == sessionId) with
  | none => db ++ [(sessionId,
      { chest_volume := volume.chest, back_volume := volume.back,
        legs_volume := volume.legs, shoulders_volume := volume.shoulders,
        arms_volume := volume.arms, core_volume := volume.core,
        total_volume := total, workout_date := workoutDate })]
  | some _ => db.map (fun p => if p.1 == sessionId then
      (p.1, { p.2 with
        chest_volume := volume.chest, back_volume := volume.back,
        legs_volume := volume.legs, shoulders_volume := volume.shoulders,
        arms_volume := volume.arms, core_volume := volume.core,
        total_volume := total }) else p)

/-- The spec's description of a group's volume: each exercise
contributes its full `sets * reps` once per tag of that group. -/
def specGroupVolume (exercises : List WExercise) (g : String) : Nat :=
  (exercises.map (fun e => e.sets * e.reps * e.muscle_groups.count g)).sum

theorem foldl_addGroupVolume (amt : Nat) (gs : List String) (v : MuscleVolume) :
    gs.foldl (fun v2 g => addGroupVolume v2 g amt) v =
      { chest := v.chest + amt * gs.count "chest",
        back := v.back + amt * gs.count "back",
        legs := v.legs + amt * gs.count "legs",
        shoulders := v.shoulders + amt * gs.count "shoulders",
        arms := v.arms + amt * gs.count "arms",
        core := v.core + amt * gs.count "core" } := by
  induction gs generalizing v with
  | nil => simp
  | cons g gs ih =>
    rw [List.foldl_cons, ih]
    simp only [addGroupVolume, List.count_cons, MuscleVolume.mk.injEq]
    by_cases h1 : g = "chest"
    · subst h1; simp [Nat.mul_succ]; omega
    · by_cases h2 : g = "back"
      · subst h2; simp [Nat.mul_succ]; omega
      · by_cases h3 : g = "legs"
        · subst h3; simp [Nat.mul_succ]; omega
        · by_cases h4 : g = "shoulders"
          · subst h4; simp [Nat.mul_succ]; omega
          · by_cases h5 : g = "arms"
            · subst h5; simp [Nat.mul_succ]; omega
            · by_cases h6 : g = "core"
              · subst h6; simp [Nat.mul_succ]; omega
              · simp [h1, h2, h3, h4, h5, h6, beq_eq_false_iff_ne,
                  Ne.symm]

theorem calculateMuscleVolume_foldl (exs : List WExercise) (v : MuscleVolume) :
    exs.foldl (fun v2 e => e.muscle_groups.foldl
        (fun v3 g => addGroupVolume v3 g (e.sets * e.reps)) v2) v =
      { chest := v.chest + specGroupVolume exs "chest",
        back := v.back + specGroupVolume exs "back",
        legs := v.legs + specGroupVolume exs "legs",
        shoulders := v.shoulders + specGroupVolume exs "shoulders",
        arms := v.arms + specGroupVolume exs "arms",
        core := v.core + specGroupVolume exs "core" } := by
  induction exs generalizing v with
  | nil => simp [specGroupVolume]
  | cons e exs ih =>
    rw [List.foldl_cons, foldl_addGroupVolume, ih]
    simp only [specGroupVolume, List.map_cons, List.sum_cons,
      MuscleVolume.mk.injEq]
    refine ⟨?_, ?_, ?_, ?_, ?_, ?_⟩ <;> omega

theorem calculateMuscleVolume_eq (exs : List WExercise) :
    calculateMuscleVolume exs =
      { chest := specGroupVolume exs "chest",
        back := specGroupVolume exs "back",
        legs := specGroupVolume exs "legs",
        shoulders := specGroupVolume exs "shoulders",
        arms := specGroupVolume exs "arms",
        core := specGroupVolume exs "core" } := by
  unfold calculateMuscleVolume
  rw [calculateMuscleVolume_foldl]
  simp

theorem lookupMB_append_of_none (db : MBDB) (sid : Nat) (r : MBRow)
    (h : lookupMB db sid = none) :
    lookupMB (db ++ [(sid, r)]) sid = some r := by
  induction db with
  | nil => simp [lookupMB]
  | cons p rest ih =>
    simp only [lookupMB, List.find?] at h ⊢
    cases hp : (p.1 == sid) with
    | true => simp [hp] at h
    | false =>
      simp only [hp, List.cons_append] at h ⊢
      exact ih h

theorem countSession_append_self (db : MBDB) (sid : Nat) (r : MBRow) :
    countSession (db ++ [(sid, r)]) sid = countSession db sid + 1 := by
  simp [countSession, List.filter_append]

theorem countSession_map_update (db : MBDB) (sid k : Nat)
    (g : Nat × MBRow → MBRow) :
    countSession (db.map (fun p => if p.1 == sid then (p.1, g p) else p)) k =
      countSession db k := by
  induction db with
  | nil => rfl
  | cons p rest ih =>
    simp only [countSession] at ih ⊢
    simp only [List.map_cons, List.filter_cons]
    by_cases hp : (p.1 == sid) = true
    · rw [if_pos hp]
      dsimp only
      cases hk : (p.1 == k) with
      | true => simpa using ih
      | false => exact ih
    · rw [if_neg hp]
      cases hk : (p.1 == k) with
      | true => simpa using ih
      | false => exact ih

theorem lookupMB_map_update (db : MBDB) (sid d : Nat)
    (g : Nat × MBRow → MBRow) :
    lookupMB (db.map (fun p => if p.1 == sid then (p.1, g p) else p)) d =
      if d = sid then (db.find? (fun p => p.1 == d)).map (fun p => g p)
      else lookupMB db d := by
  induction db with
  | nil => simp [lookupMB]
  | cons p rest ih =>
    simp only [lookupMB, List.map_cons, List.find?] at ih ⊢
    by_cases hpd : p.1 = d
    · by_cases hpt : p.1 = sid
      · have h1 : (p.1 == sid) = true := beq_iff_eq.mpr hpt
        have h2 : (p.1 == d) = true := beq_iff_eq.mpr hpd
        have h3 : d = sid := hpd ▸ hpt
        simp [h1, h2, h3]
      · have h1 : (p.1 == sid) = false := beq_eq_false_iff_ne.mpr hpt
        have h2 : (p.1 == d) = true := beq_iff_eq.mpr hpd
        have h3 : ¬d = sid := fun hc => hpt (hpd.trans hc)
        simp [h1, h2, h3]
    · have h2 : (p.1 == d) = false := beq_eq_false_iff_ne.mpr hpd
      by_cases hpt : p.1 = sid
      · have h1 : (p.1 == sid) = true := beq_iff_eq.mpr hpt
        simp only [h1, if_true, List.find?]
        simp only [show ((p.1, g p).1 == d) = false from h2]
        exact ih
      · have h1 : (p.1 == sid) = false := beq_eq_false_iff_ne.mpr hpt
        simp only [h1, Bool.false_eq_true, if_false, List.find?, h2]
        exact ih

theorem find_append_of_none (db l : MBDB) (pred : Nat × MBRow → Bool)
    (h : db.find? pred = none) : (db ++ l).find? pred = l.find? pred := by
  induction db with
  | nil => simp
  | cons p rest ih =>
    simp only [List.find?] at h
    cases hp : pred p with
    | true => simp [hp] at h
    | false =>
      simp only [hp] at h
      simp only [List.cons_append, List.find?, hp]
      exact ih h

theorem recordMuscleBalance_of_missing (db : MBDB) (sid : Nat)
    (exs : List WExercise) (d : Nat)
    (hf : db.find? (fun p => p.1 == sid) = none) :
    recordMuscleBalance db sid exs d =
      db ++ [(sid,
        { chest_volume := (calculateMuscleVolume exs).chest,
          back_volume := (calculateMuscleVolume exs).back,
          legs_volume := (calculateMuscleVolume exs).legs,
          shoulders_volume := (calculateMuscleVolume exs).shoulders,
          arms_volume := (calculateMuscleVolume exs).arms,
          core_volume := (calculateMuscleVolume exs).core,
          total_volume := totalVolume (calculateMuscleVolume exs),
          workout_date := d })] := by
  unfold recordMuscleBalance
  rw [hf]

theorem recordMuscleBalance_of_found (db : MBDB) (sid : Nat)
    (exs : List WExercise) (d : Nat) (p : Nat × MBRow)
    (hf : db.find? (fun r => r.1 == sid) = some p) :
    recordMuscleBalance db sid exs d =
      db.map (fun r => if r.1 == sid then
        (r.1, { r.2 with
          chest_volume := (calculateMuscleVolume exs).chest,
          back_volume := (calculateMuscleVolume exs).back,
          legs_volume := (calculateMuscleVolume exs).legs,
          shoulders_volume := (calculateMuscleVolume exs).shoulders,
          arms_volume := (calculateMuscleVolume exs).arms,
          core_volume := (calculateMuscleVolume exs).core,
          total_volume := totalVolume (calculateMuscleVolume exs) }) else r) := by
  unfold recordMuscleBalance
  rw [hf]

theorem countSession_zero_of_none (db : MBDB) (sid : Nat)
    (h : lookupMB db sid = none) : countSession db sid = 0 := by
  induction db with
  | nil => rfl
  | cons p rest ih =>
    simp only [lookupMB, List.find?] at h
    cases hp : (p.1 == sid) with
    | true => simp [hp] at h
    | false =>
      simp only [hp] at h
      simp only [countSession, List.filter, hp]
      exact ih (by simpa [lookupMB] using h)

/-- C7: starting from a table with no row for the session, recording
muscle balance twice with different exercise lists leaves exactly one
row for the session; its per-group volumes are exactly the spec's
per-group formula applied to the SECOND call's exercise list (each
exercise contributing its full `sets * reps` to every tagged group),
and its `total_volume` is the sum of the six stored group volumes. -/
theorem recordMuscleBalance_replaces (db : MBDB) (sid : Nat)
    (ex1 ex2 : List WExercise) (d1 d2 : Nat)
    (h : lookupMB db sid = none) :
    countSession
      (recordMuscleBalance (recordMuscleBalance db sid ex1 d1) sid ex2 d2)
      sid = 1 ∧
    ∃ r, lookupMB
        (recordMuscleBalance (recordMuscleBalance db sid ex1 d1) sid ex2 d2)
        sid = some r ∧
      r.chest_volume = specGroupVolume ex2 "chest" ∧
      r.back_volume = specGroupVolume ex2 "back" ∧
      r.legs_volume = specGroupVolume ex2 "legs" ∧
      r.shoulders_volume = specGroupVolume ex2 "shoulders" ∧
      r.arms_volume = specGroupVolume ex2 "arms" ∧
      r.core_volume = specGroupVolume ex2 "core" ∧
      r.total_volume = r.chest_volume + r.back_volume + r.legs_volume +
        r.shoulders_volume + r.arms_volume + r.core_volume := by
  have hfind : db.find? (fun p => p.1 == sid) = none := by
    cases hf : db.find? (fun p => p.1 == sid) with
    | none => rfl
    | some p => rw [lookupMB, hf] at h; simp at h
  have hdb1 := recordMuscleBalance_of_missing db sid ex1 d1 hfind
  have hlook1 : lookupMB (recordMuscleBalance db sid ex1 d1) sid =
      some { chest_volume := (calculateMuscleVolume ex1).chest,
             back_volume := (calculateMuscleVolume ex1).back,
             legs_volume := (calculateMuscleVolume ex1).legs,
             shoulders_volume := (calculateMuscleVolume ex1).shoulders,
             arms_volume := (calculateMuscleVolume ex1).arms,
             core_volume := (calculateMuscleVolume ex1).core,
             total_volume := totalVolume (calculateMuscleVolume ex1),
             workout_date := d1 } := by
    rw [hdb1]
    exact lookupMB_append_of_none db sid _ h
  have hfind1 : (recordMuscleBalance db sid ex1 d1).find?
      (fun p => p.1 == sid) = some (sid,
        { chest_volume := (calculateMuscleVolume ex1).chest,
          back_volume := (calculateMuscleVolume ex1).back,
          legs_volume := (calculateMuscleVolume ex1).legs,
          shoulders_volume := (calculateMuscleVolume ex1).shoulders,
          arms_volume := (calculateMuscleVolume ex1).arms,
          core_volume := (calculateMuscleVolume ex1).core,
          total_volume := totalVolume (calculateMuscleVolume ex1),
          workout_date := d1 }) := by
    rw [hdb1, find_append_of_none db _ _ hfind]
    simp [List.find?]
  have hdb2 := recordMuscleBalance_of_found
    (recordMuscleBalance db sid ex1 d1) sid ex2 d2 _ hfind1
  constructor
  · rw [hdb2, countSession_map_update, hdb1, countSession_append_self,
      countSession_zero_of_none db sid h]
  · refine Exists.intro
      { chest_volume := (calculateMuscleVolume ex2).chest,
        back_volume := (calculateMuscleVolume ex2).back,
        legs_volume := (calculateMuscleVolume ex2).legs,
        shoulders_volume := (calculateMuscleVolume ex2).shoulders,
        arms_volume := (calculateMuscleVolume ex2).arms,
        core_volume := (calculateMuscleVolume ex2).core,
        total_volume := totalVolume (calculateMuscleVolume ex2),
        workout_date := d1 } ?_
    refine ⟨?_, ?_, ?_, ?_, ?_, ?_, ?_, ?_⟩
    · rw [hdb2, lookupMB_map_update, if_pos rfl, hfind1]
      rfl
    all_goals simp [calculateMuscleVolume_eq, totalVolume]

/-- Witness for `recordMuscleBalance_replaces`: empty table, session 7,
first call a 3×10 bench-press set tagged chest+arms, second call a 2×5
squat tagged legs. -/
theorem recordMuscleBalance_replaces_witness :
    lookupMB ([] : MBDB) 7 = none ∧
    countSession
      (recordMuscleBalance
        (recordMuscleBalance [] 7
          [{ sets := 3, reps := 10, muscle_groups := ["chest", "arms"] }] 100)
        7 [{ sets := 2, reps := 5, muscle_groups := ["legs"] }] 101) 7 = 1 :=
  ⟨rfl,
    (recordMuscleBalance_replaces [] 7
      [{ sets := 3, reps := 10, muscle_groups := ["chest", "arms"] }]
      [{ sets := 2, reps := 5, muscle_groups := ["legs"] }] 100 101 rfl).1⟩

/-! ### All-time balance (`getAllTimeMuscleBalance`) -/

/-- `Number(x)` on a nullable SQL aggregate: `Number(null)` is 0. -/
def jsNumberOfNullable (x : Option Nat) : Nat := x.getD 0

/-- `SUM(col)` over the user's rows; SQL `SUM` is `NULL` on an empty
set of rows. -/
def sumColumn (db : List MBRow) (f : MBRow → Nat) : Option Nat :=
  match db with
  | [] => none
  | _ => some ((db.map f).sum)

/-- `.toFixed(1)` modelled as exact rounding to one decimal place. -/
def toFixed1 (x : Rat) : Rat := ((round (x * 10) : Int) : Rat) / 10

/-- The percentages returned by the balance queries. -/
structure BalanceReport where
  chest : Rat
  back : Rat
  legs : Rat
  shoulders : Rat
  arms : Rat
  core : Rat
deriving DecidableEq, Repr

/-- `const total = Number(result[0].total) || 1`. -/
def balanceDivisor (db : List MBRow) : Nat :=
  let t := jsNumberOfNullable (sumColumn db (fun r => r.total_volume))
  if t = 0 then 1 else t

/-- `getAllTimeMuscleBalance` for one user, taking the user's rows. -/
def getAllTimeMuscleBalance (db : List MBRow) : BalanceReport :=
  let total := balanceDivisor db
  { chest := toFixed1 ((jsNumberOfNullable (sumColumn db (fun r => r.chest_volume)) : Rat) / total * 100),
    back := toFixed1 ((jsNumberOfNullable (sumColumn db (fun r => r.back_volume)) : Rat) / total * 100),
    legs := toFixed1 ((jsNumberOfNullable (sumColumn db (fun r => r.legs_volume)) : Rat) / total * 100),
    shoulders := toFixed1 ((jsNumberOfNullable (sumColumn db (fun r => r.shoulders_volume)) : Rat) / total * 100),
    arms := toFixed1 ((jsNumberOfNullable (sumColumn db (fun r => r.arms_volume)) : Rat) / total * 100),
    core := toFixed1 ((jsNumberOfNullable (sumColumn db (fun r => r.core_volume)) : Rat) / total * 100) }

/-- C9: with zero recorded sessions every group percentage is exactly
0.0 (no error is possible), and for every table the divisor is at least
1, so the division never divides by zero. -/
theorem getAllTimeMuscleBalance_empty_safe :
    getAllTimeMuscleBalance [] =
      { chest := 0, back := 0, legs := 0, shoulders := 0, arms := 0, core := 0 } ∧
    (∀ db : List MBRow, 1 ≤ balanceDivisor db) := by
  constructor
  · simp [getAllTimeMuscleBalance, balanceDivisor, jsNumberOfNullable,
      sumColumn, toFixed1]
  · intro db
    unfold balanceDivisor
    by_cases ht : jsNumberOfNullable (sumColumn db (fun r => r.total_volume)) = 0
    · simp [ht]
    · simp only [ht, if_false]
      omega

/-! ## Program-generator field normalization

From `createWorkoutProgram` in the program-generation route: the
`sets`, `reps`, `restSeconds` and `muscleGroups` coercions applied to
each exercise of the generation response. -/

/-- A loosely-typed JavaScript value from the generation response.
`num n` is an integer-valued number; `nullish` is `null`/`undefined`
(falsy, not a string, fails `Number.isInteger`); `objlike` is any other
non-string value (truthy, fails `Number.isInteger`), e.g. an object or
a non-integer number. -/
inductive JSVal where
  | num (n : Int)
  | str (s : String)
  | nullish
  | objlike
deriving DecidableEq, Repr

/-- JavaScript truthiness of a `JSVal` (the `x || default` test):
the number 0 and the empty string are falsy. -/
def jsTruthy : JSVal → Bool
  | .num n => n != 0
  | .str s => !s.toList.isEmpty
  | .nullish => false
  | .objlike => true

/-- `parseInt` on a captured run of decimal digits. -/
def digitsToNat (l : List Char) : Nat :=
  l.foldl (fun a c => a * 10 + (c.toNat - 48)) 0

/-- `s.match(/(\d+)/)`: value of the first maximal digit run, if any. -/
def firstIntAux : List Char → Option Nat
  | [] => none
  | c :: cs =>
    if c.isDigit then some (digitsToNat ((c :: cs).takeWhile Char.isDigit))
    else firstIntAux cs

def firstInt (s : String) : Option Nat := firstIntAux s.toList

/-- `s.match(/(\d+)-(\d+)/)`: first digit run immediately followed by a
hyphen and a second digit run.  For this pattern backtracking cannot
shorten a maximal digit run (a shortened run is followed by a digit,
never by `-`), so a maximal-run scan is equivalent to the regex. -/
def rangeMatchAux : List Char → Option (Nat × Nat)
  | [] => none
  | c :: cs =>
    if c.isDigit then
      match (c :: cs).dropWhile Char.isDigit with
      | '-' :: d :: r2 =>
        if d.isDigit then
          some (digitsToNat ((c :: cs).takeWhile Char.isDigit),
                digitsToNat ((d :: r2).takeWhile Char.isDigit))
        else rangeMatchAux cs
      | _ => rangeMatchAux cs
    else rangeMatchAux cs

def rangeMatch (s : String) : Option (Nat × Nat) := rangeMatchAux s.toList

/-- `needle` is a prefix of `hay` (character lists). -/
def startsWithChars : List Char → List Char → Bool
  | [], _ => true
  | _ :: _, [] => false
  | a :: as, b :: bs => a == b && startsWithChars as bs

def containsSubAux (needle : List Char) : List Char → Bool
  | [] => needle.isEmpty
  | c :: cs => startsWithChars needle (c :: cs) || containsSubAux needle cs

/-- JavaScript `s.toLowerCase().includes(sub)` (needle given
lower-case). -/
def lowerIncludes (s sub : String) : Bool :=
  containsSubAux sub.toList (s.toList.map Char.toLower)

/-- Sets normalization: strings yield their first embedded integer
(default 3 when none); then any value that is not an integer ≥ 1 falls
back to 3. -/
def normalizeSets (v : JSVal) : Nat :=
  let sets : Option Int :=
    match v with
    | .str s =>
      match firstInt s with
      | some k => some (k : Int)
      | none => some 3
    | .num k => some k
    | .nullish => none
    | .objlike => none
  match sets with
  | some k => if k < 1 then 3 else k.toNat
  | none => 3

/-- Reps normalization: strings containing "as many"/"amrap"
(lower-cased) yield 12; strings containing `-` yield
`Math.round((A+B)/2)` of the first `A-B` range (10 when no range
matches); other strings yield their first embedded integer (default
10); then any value that is not an integer ≥ 1 falls back to 10.
`Math.round((A+B)/2)` on integers is `(A+B+1)/2` (halves round up). -/
def normalizeReps (v : JSVal) : Nat :=
  let reps : Option Int :=
    match v with
    | .str s =>
      if lowerIncludes s "as many" || lowerIncludes s "amrap" then
        some 12
      else if s.toList.contains '-' then
        match rangeMatch s with
        | some (mn, mx) => some (((mn + mx + 1) / 2 : Nat) : Int)
        | none => some 10
      else
        match firstInt s with
        | some k => some (k : Int)
        | none => some 10
    | .num k => some k
    | .nullish => none
    | .objlike => none
  match reps with
  | some k => if k < 1 then 10 else k.toNat
  | none => 10

/-- Rest-seconds normalization.  Note the initial
`exercise.restSeconds || 60` truthiness default applied before any
parsing — it replaces the *number* 0 (falsy) by 60 — followed by string
parsing (first embedded integer, default 60) and a final
integer-and-non-negative check falling back to 60. -/
def normalizeRestSeconds (v : JSVal) : Nat :=
  let v1 : JSVal := if jsTruthy v then v else .num 60
  let rest : Option Int :=
    match v1 with
    | .str s =>
      match firstInt s with
      | some k => some (k : Int)
      | none => some 60
    | .num k => some k
    | .nullish => none
    | .objlike => none
  match rest with
  | some k => if k < 0 then 60 else k.toNat
  | none => 60

/-- A loosely-typed muscle-groups value: an array of strings, a JSON
string, a number, or null/undefined. -/
inductive MGVal where
  | arr (xs : List String)
  | str (s : String)
  | num (n : Int)
  | nullish
deriving DecidableEq, Repr

def skipWs (l : List Char) : List Char :=
  l.dropWhile (fun c => c == ' ' || c == '\t' || c == '\n' || c == '\r')

/-- Parse the rest of a JSON string literal (after its opening quote).
Escape sequences are treated as parse failures (none occur in the
payloads the claims exercise). -/
def strLitAux : List Char → List Char → Option (String × List Char)
  | _, [] => none
  | acc, c :: rest =>
    if c == '"' then some (String.mk acc.reverse, rest)
    else if c == '\\' then none
    else strLitAux (c :: acc) rest

/-- Parse `"s1", "s2", ... ]` with optional whitespace; `fuel` bounds
the recursion by the number of elements. -/
def jsonElemsAux : Nat → List Char → List String → Option (List String)
  | 0, _, _ => none
  | fuel + 1, l, acc =>
    match skipWs l with
    | '"' :: r =>
      match strLitAux [] r with
      | none => none
      | some (s, rest) =>
        match skipWs rest with
        | ',' :: r2 => jsonElemsAux fuel r2 (s :: acc)
        | ']' :: r3 =>
          if (skipWs r3).isEmpty then some (s :: acc).reverse else none
        | _ => none
    | _ => none

/-- `JSON.parse` restricted to arrays of string literals: the element
list for a well-formed `["a", "b", ...]` input, `none` otherwise.
Inputs that JSON.parse would accept but that are not arrays of strings
(not exercised by the claims) are folded into `none`; the source maps
both parse failures and non-array parse results to `[]`. -/
def parseJsonStringList (s : String) : Option (List String) :=
  match skipWs s.toList with
  | '[' :: r =>
    match skipWs r with
    | ']' :: r2 => if (skipWs r2).isEmpty then some [] else none
    | _ => jsonElemsAux (r.length + 1) r []
  | _ => none

/-- Muscle-groups normalization: `exercise.muscleGroups || []`
(truthiness default), then `JSON.parse` of string values with failures
caught to `[]`, then an `Array.isArray` check defaulting every
non-array value to `[]`. -/
def normalizeMuscleGroups (v : MGVal) : List String :=
  let v1 : MGVal :=
    match v with
    | .nullish => .arr []
    | .num n => if n == 0 then .arr [] else .num n
    | .str s => if s.toList.isEmpty then .arr [] else .str s
    | .arr xs => .arr xs
  let v2 : MGVal :=
    match v1 with
    | .str s =>
      match parseJsonStringList s with
      | some xs => .arr xs
      | none => .arr []
    | w => w
  match v2 with
  | .arr xs => xs
  | _ => []

theorem rangeMatchAux_none (l : List Char) (h : firstIntAux l = none) :
    rangeMatchAux l = none := by
  induction l with
  | nil => rfl
  | cons c cs ih =>
    unfold firstIntAux at h
    unfold rangeMatchAux
    by_cases hd : c.isDigit
    · simp [hd] at h
    · simp only [hd, Bool.false_eq_true, if_false] at h ⊢
      exact ih h

/-- C3: the program generator's field normalization on the spec's
examples — reps "8-12" → 10, "AMRAP"/"as many as possible" → 12,
"15 reps" → 15, with default 10 whenever a string holds no digits (and
for null and non-positive numbers); sets "3-4 sets" → 3 with default 3;
a muscle-groups JSON string yields its parsed list and a numeric value
yields the empty list. -/
theorem normalization_examples :
    normalizeReps (.str "8-12") = 10 ∧
    normalizeReps (.str "AMRAP") = 12 ∧
    normalizeReps (.str "as many as possible") = 12 ∧
    normalizeReps (.str "15 reps") = 15 ∧
    (∀ s : String, lowerIncludes s "as many" = false →
      lowerIncludes s "amrap" = false →
      firstInt s = none → normalizeReps (.str s) = 10) ∧
    normalizeReps .nullish = 10 ∧
    normalizeReps (.num 0) = 10 ∧
    normalizeSets (.str "3-4 sets") = 3 ∧
    normalizeSets .nullish = 3 ∧
    normalizeMuscleGroups (.str "[\"chest\",\"triceps\"]") =
      ["chest", "triceps"] ∧
    normalizeMuscleGroups (.num 42) = [] := by
  refine ⟨by decide, by decide, by decide, by decide, ?_, by decide,
    by decide, by decide, by decide, by decide, by decide⟩
  intro s h1 h2 h3
  unfold normalizeReps
  dsimp only
  rw [h1, h2]
  simp only [Bool.or_self, Bool.false_eq_true, if_false]
  by_cases hc : s.toList.contains '-' = true
  · rw [if_pos hc, rangeMatch, rangeMatchAux_none _ h3]
    rfl
  · rw [if_neg hc, h3]
    rfl

/-- Witness for `normalization_examples` (its general default-10 part)
at the digit-free string "rest day". -/
theorem normalization_examples_witness :
    lowerIncludes "bodyweight" "as many" = false ∧
    lowerIncludes "bodyweight" "amrap" = false ∧
    firstInt "bodyweight" = none ∧
    normalizeReps (.str "bodyweight") = 10 :=
  ⟨by decide, by decide, by decide,
    normalization_examples.2.2.2.2.1 "bodyweight" (by decide) (by decide)
      (by decide)⟩

/-- C8 counterexample: a provided rest-seconds value of 0 (a
non-negative integer) is NOT preserved — the `|| 60` truthiness default
replaces the falsy number 0 with 60. -/
theorem normalizeRestSeconds_zero_counterexample :
    normalizeRestSeconds (.num 0) = 60 ∧ (60 : Nat) ≠ 0 := by
  exact ⟨rfl, by decide⟩

/-- C8 (amended): rest_seconds equals the first embedded integer of a
non-empty string value (default 60 when the string holds no digits); a
positive integer number is preserved; the default 60 is applied when
the value is absent, negative, or the falsy number 0 — so a numeric 0
becomes 60, while the string "0" still yields 0. -/
theorem normalizeRestSeconds_amended :
    (∀ s : String, s.toList.isEmpty = false →
      normalizeRestSeconds (.str s) = (firstInt s).getD 60) ∧
    (∀ n : Int, 0 < n → normalizeRestSeconds (.num n) = n.toNat) ∧
    normalizeRestSeconds (.num 0) = 60 ∧
    (∀ n : Int, n < 0 → normalizeRestSeconds (.num n) = 60) ∧
    normalizeRestSeconds .nullish = 60 ∧
    normalizeRestSeconds (.str "0") = 0 := by
  refine ⟨?_, ?_, rfl, ?_, rfl, by decide⟩
  · intro s hs
    unfold normalizeRestSeconds jsTruthy
    simp only [hs, Bool.not_false, if_true]
    cases hf : firstInt s with
    | none => rfl
    | some k =>
      simp only [Option.getD_some]
      have : ¬((k : Int) < 0) := by omega
      simp only [this, if_false, Int.toNat_natCast]
  · intro n hn
    unfold normalizeRestSeconds jsTruthy
    have h1 : (n != 0) = true := by simp; omega
    have h2 : ¬(n < 0) := by omega
    simp only [h1, if_true, h2, if_false]
  · intro n hn
    unfold normalizeRestSeconds jsTruthy
    have h1 : (n != 0) = true := by simp; omega
    have h2 : n < 0 := hn
    simp only [h1, if_true, h2, if_true]

/-- Witness for `normalizeRestSeconds_amended`: the string "45 sec"
yields its first embedded integer 45, and the positive number 90 is
preserved. -/
theorem normalizeRestSeconds_amended_witness :
    List.isEmpty (String.toList "45 sec") = false ∧
    normalizeRestSeconds (.str "45 sec") = 45 ∧
    normalizeRestSeconds (.num 90) = 90 :=
  ⟨by decide,
    by rw [normalizeRestSeconds_amended.1 "45 sec" (by decide)]; decide,
    by rw [normalizeRestSeconds_amended.2.1 90 (by decide)]; decide⟩

/-! ## Primary logging actions and quest-bookkeeping propagation

From the weights POST handler and the activities POST handler: each
performs its primary insert, then runs the quest-bookkeeping block
inside try/catch — a `questError` is logged (`console.error`) and
swallowed, never propagated to the caller.  (The meals POST route has
no in-route quest bookkeeping; its quest credit goes through the
separate daily-quests endpoint.) -/

/-- Fault injection for the quest-bookkeeping side effect: the
statement at which the database throws, if any.  A failing statement
has no effect; the statements before it have already been applied
(there is no enclosing transaction). -/
inductive QuestFault where
  | ok
  | atUpsert
  | atRead
  | atComplete
deriving DecidableEq, Repr

/-- The quest table as left by the bookkeeping block (flag upsert,
re-read, conditional `day_completed` update) under the given fault. -/
def questBookkeeping (db : QuestDB) (t : QuestType) (date : Nat) :
    QuestFault → QuestDB
  | .ok => recordQuestAction db t date
  | .atUpsert => db
  | .atRead => questFlagPhase db t date
  | .atComplete => questFlagPhase db t date

/-- Tables visible to the primary logging routes (per user). -/
structure AppState where
  weights : List (Int × Nat)
  activities : List (String × Nat)
  quests : QuestDB
deriving DecidableEq, Repr

/-- A route response: `success` stands for the non-error (2xx) JSON
shape, `status` for the HTTP status code. -/
structure ApiResponse where
  success : Bool
  status : Nat
deriving DecidableEq, Repr

/-- The weights POST handler: validation (`!weight` rejects the falsy
number 0), the primary `INSERT INTO weights` (the BMR recomputation,
itself in its own swallowed try/catch, is elided), then the quest
bookkeeping block in try/catch; the handler returns 201 regardless of
any quest fault. -/
def weightsPost (st : AppState) (w : Int) (date : Nat) (fault : QuestFault) :
    AppState × ApiResponse :=
  if w == 0 then (st, { success := false, status := 400 })
  else
    let st1 := { st with weights := st.weights ++ [(w, date)] }
    let st2 := { st1 with
      quests := questBookkeeping st1.quests .weight date fault }
    (st2, { success := true, status := 201 })

/-- `isActualExercise`: no quest credit for the BMR or daily-steps
bookkeeping activities. -/
def isActualExercise (desc : String) : Bool :=
  !(lowerIncludes desc "basal metabolic rate") &&
    !(lowerIncludes desc "daily steps")

/-- The activities POST handler: validation (empty description is
falsy), the primary `INSERT INTO activities`, then — only for actual
exercises — the quest bookkeeping block in try/catch; the handler
returns 201 regardless of any quest fault. -/
def activitiesPost (st : AppState) (desc : String) (date : Nat)
    (fault : QuestFault) : AppState × ApiResponse :=
  if desc.toList.isEmpty then (st, { success := false, status := 400 })
  else
    let st1 := { st with activities := st.activities ++ [(desc, date)] }
    let st2 := if isActualExercise desc then
        { st1 with quests := questBookkeeping st1.quests .exercise date fault }
      else st1
    (st2, { success := true, status := 201 })

/-- C6: for valid input, whatever point of the quest bookkeeping fails,
the weights and activities handlers still answer success (201) and
their primary table writes are exactly the one inserted row — quest
failures are never propagated to the caller. -/
theorem quest_failures_not_propagated :
    (∀ (st : AppState) (w : Int) (date : Nat) (fault : QuestFault),
      w ≠ 0 →
      (weightsPost st w date fault).2.success = true ∧
      (weightsPost st w date fault).2.status = 201 ∧
      (weightsPost st w date fault).1.weights = st.weights ++ [(w, date)]) ∧
    (∀ (st : AppState) (desc : String) (date : Nat) (fault : QuestFault),
      desc.toList.isEmpty = false →
      (activitiesPost st desc date fault).2.success = true ∧
      (activitiesPost st desc date fault).2.status = 201 ∧
      (activitiesPost st desc date fault).1.activities =
        st.activities ++ [(desc, date)]) := by
  constructor
  · intro st w date fault hw
    have h0 : (w == 0) = false := by simpa using hw
    unfold weightsPost
    rw [h0]
    exact ⟨rfl, rfl, rfl⟩
  · intro st desc date fault hd
    unfold activitiesPost
    rw [hd]
    dsimp only
    by_cases he : isActualExercise desc = true
    · rw [if_pos he]
      exact ⟨rfl, rfl, rfl⟩
    · rw [if_neg he]
      exact ⟨rfl, rfl, rfl⟩

/-- Witness for `quest_failures_not_propagated`: from the empty state,
a weight of 80 logged on date 3 with the quest upsert failing, and a
"morning run" activity with the completion update failing, both still
return 201 with their rows inserted. -/
theorem quest_failures_not_propagated_witness :
    (80 : Int) ≠ 0 ∧
    List.isEmpty (String.toList "morning run") = false ∧
    (weightsPost ⟨[], [], []⟩ 80 3 QuestFault.atUpsert).2.success = true ∧
    (activitiesPost ⟨[], [], []⟩ "morning run" 3
        QuestFault.atComplete).2.success = true :=
  ⟨by decide, by decide,
    (quest_failures_not_propagated.1 ⟨[], [], []⟩ 80 3 QuestFault.atUpsert
      (by decide)).1,
    (quest_failures_not_propagated.2 ⟨[], [], []⟩ "morning run" 3
      QuestFault.atComplete (by decide)).1⟩

end Fortia
